import Mathlib

/-!
Verification of the Mori coding agent (src/mori.py): the response-protocol
codec (`_evaluate_execution` / `_evaluate_code` / `edit_file` parsing /
`_improve_code` code extraction), the `_run_code` subprocess-output parser,
and the autonomous goal-convergence loop `auto_achieve_goal`.

Strings are modelled as `List Char`.  Python's `s.split(sep)` scans left to
right for non-overlapping occurrences of `sep`; the source only ever uses
`split(sep)[0]` and `split(sep)[1]`, which are respectively the text before
the first occurrence (the whole string when `sep` is absent) and the text
strictly between the first and second occurrences (indexing raises when
`sep` is absent).  We embed these two observations directly:
`splitBefore sep s` is `s.split(sep)[0]` and, when `sep` occurs,
`splitBefore sep ((splitAfter sep s).getD [])` is `s.split(sep)[1]`;
`splitAfter sep s = none` models the `IndexError` raised by `[1]` when
`sep` does not occur.  `str.strip()` / `str.lower()` are modelled on the
ASCII range (`isPyWs`, `lowerChar`), which is exact for every literal the
program compares against.
-/

/-- The characters of a string literal. -/
def chars (s : String) : List Char := s.data

/-- Python `str.strip()` whitespace class (ASCII part). -/
def isPyWs (c : Char) : Bool :=
  c == ' ' || c == '\t' || c == '\n' || c == '\r' || c == '\x0b' || c == '\x0c'

/-- Python `str.lstrip()`. -/
def lstrip (s : List Char) : List Char := s.dropWhile isPyWs

/-- Python `str.rstrip()`. -/
def rstrip (s : List Char) : List Char := (lstrip s.reverse).reverse

/-- Python `str.strip()`. -/
def pyStrip (s : List Char) : List Char := rstrip (lstrip s)

/-- Python `str.lower()` on the ASCII range (the program only compares the
result against ASCII literals such as "yes" and "success"). -/
def lowerChar (c : Char) : Char :=
  if 'A' ≤ c ∧ c ≤ 'Z' then Char.ofNat (c.toNat + 32) else c

/-- Python `str.lower()`. -/
def pyLower (s : List Char) : List Char := s.map lowerChar

/-- The text after the first occurrence of `sep` in `s`, or `none` when
`sep` does not occur (Python `s.split(sep)` has length 1 there, so `[1]`
raises `IndexError`). -/
def splitAfter (sep : List Char) : List Char → Option (List Char)
  | [] => if sep.isEmpty then some [] else none
  | c :: rest =>
    if sep.isPrefixOf (c :: rest) then some ((c :: rest).drop sep.length)
    else splitAfter sep rest

/-- The text before the first occurrence of `sep` in `s`; all of `s` when
`sep` does not occur.  This is Python `s.split(sep)[0]`. -/
def splitBefore (sep : List Char) : List Char → List Char
  | [] => []
  | c :: rest =>
    if sep.isPrefixOf (c :: rest) then [] else c :: splitBefore sep rest

/-- Python `sep in s` (substring test). -/
def occurs (sep s : List Char) : Bool := (splitAfter sep s).isSome

/-- No occurrence of `sep` starts strictly inside `a` when `a` is followed
by `b`: the well-formedness condition under which the split of `a ++ b` at
`sep` happens inside `b`. -/
def noEarlyMatch (sep a b : List Char) : Prop :=
  ∀ i < a.length, sep.isPrefixOf (List.drop i a ++ b) = false

instance noEarlyMatchDecidable (sep a b : List Char) :
    Decidable (noEarlyMatch sep a b) :=
  inferInstanceAs
    (Decidable (∀ i, i < a.length → sep.isPrefixOf (List.drop i a ++ b) = false))

/-! ### The protocol delimiters (string literals of src/mori.py) -/

def dEXPLANATION : List Char := chars "---EXPLANATION---"
def dCODE : List Char := chars "---CODE---"
def dNOTES : List Char := chars "---NOTES---"
def dACHIEVED : List Char := chars "---ACHIEVED---"
def dFEEDBACK : List Char := chars "---FEEDBACK---"
def pythonFence : List Char := chars "```python"
def plainFence : List Char := chars "```"

/-! ### Evaluation parsing (`_evaluate_execution` lines 684-697 and
`_evaluate_code` lines 840-853; the two methods inline the identical
parse, modelled once) -/

structure EvaluationResult where
  goal_achieved : Bool
  feedback : List Char
deriving DecidableEq

def failParseMsg : List Char := chars "Failed to parse evaluation"

/--
```python
try:
    achieved = response.split("---ACHIEVED---")[1].split("---FEEDBACK---")[0].strip().lower()
    feedback = response.split("---FEEDBACK---")[1].strip()
    return {'goal_achieved': achieved == 'yes', 'feedback': feedback}
except Exception:
    return {'goal_achieved': False, 'feedback': "Failed to parse evaluation"}
```
A `none` from either `splitAfter` is the caught `IndexError`.
-/
def parseEvaluation (response : List Char) : EvaluationResult :=
  match splitAfter dACHIEVED response with
  | none => ⟨false, failParseMsg⟩
  | some t =>
    match splitAfter dFEEDBACK response with
    | none => ⟨false, failParseMsg⟩
    | some u =>
      ⟨pyLower (pyStrip (splitBefore dFEEDBACK (splitBefore dACHIEVED t))) == chars "yes",
       pyStrip (splitBefore dFEEDBACK u)⟩

/-- `_evaluate_execution` around the parse: `generate_response` returning
`None` or `""` is falsy, so `if not response:` returns the fixed record
with feedback "Failed to evaluate execution" (lines 685-686). -/
def evaluateExecution (response : Option (List Char)) : EvaluationResult :=
  match response with
  | none => ⟨false, chars "Failed to evaluate execution"⟩
  | some r =>
    if r.isEmpty then ⟨false, chars "Failed to evaluate execution"⟩
    else parseEvaluation r

/-- `_evaluate_code` around the parse (lines 841-842). -/
def evaluateCode (response : Option (List Char)) : EvaluationResult :=
  match response with
  | none => ⟨false, chars "Failed to evaluate code"⟩
  | some r =>
    if r.isEmpty then ⟨false, chars "Failed to evaluate code"⟩
    else parseEvaluation r

/-! ### Edit-response parsing (`edit_file` lines 308-315) -/

structure EditProposal where
  explanation : List Char
  code : List Char
  notes : List Char
deriving DecidableEq

/--
```python
try:
    explanation = response.split("---EXPLANATION---")[1].split("---CODE---")[0].strip()
    new_code = response.split("---CODE---")[1].split("---NOTES---")[0].strip()
    notes = response.split("---NOTES---")[1].strip()
except IndexError:
    ... return   # ProtocolParseError: distinct from the evaluation path
```
-/
def parseEdit (response : List Char) : Option EditProposal :=
  match splitAfter dEXPLANATION response, splitAfter dCODE response,
        splitAfter dNOTES response with
  | some tE, some tC, some tN =>
    some ⟨pyStrip (splitBefore dCODE (splitBefore dEXPLANATION tE)),
          pyStrip (splitBefore dNOTES (splitBefore dCODE tC)),
          pyStrip (splitBefore dNOTES tN)⟩
  | _, _, _ => none

/-- The edit response assembled from the template the `edit_file` prompt
requests (lines 293-302): each section marker on its own line followed by
the section body, with a blank line between sections. -/
def mkEditResponse (e c n : List Char) : List Char :=
  dEXPLANATION ++ '\n' :: (e ++ '\n' :: '\n' ::
    (dCODE ++ '\n' :: (c ++ '\n' :: '\n' :: (dNOTES ++ '\n' :: n))))

/-- Section body containing none of the three edit markers. -/
def delimiterFree (t : List Char) : Prop :=
  occurs dEXPLANATION t = false ∧ occurs dCODE t = false ∧ occurs dNOTES t = false

instance delimiterFreeDecidable (t : List Char) : Decidable (delimiterFree t) :=
  inferInstanceAs (Decidable (occurs dEXPLANATION t = false
    ∧ occurs dCODE t = false ∧ occurs dNOTES t = false))

/-! ### Code extraction (`_improve_code` lines 913-923) -/

/--
```python
if "```python" in response:
    code = response.split("```python")[1].split("```")[0].strip()
elif "```" in response:
    code = response.split("```")[1].split("```")[0].strip()
else:
    code = response.strip()
```
`splitAfter sep response = some t` is exactly `sep in response`, so the
match mirrors the `if`/`elif`/`else`.
-/
def extractCode (response : List Char) : List Char :=
  match splitAfter pythonFence response with
  | some t => pyStrip (splitBefore plainFence (splitBefore pythonFence t))
  | none =>
    match splitAfter plainFence response with
    | some t => pyStrip (splitBefore plainFence t)
    | none => pyStrip response

/-- `_improve_code` around the extraction: `if not response: return None`
(lines 910-911); nothing in the extraction itself can raise, so the
`except` at line 922 is dead. -/
def improveCode (response : Option (List Char)) : Option (List Char) :=
  match response with
  | none => none
  | some r => if r.isEmpty then none else some (extractCode r)

/-! ### Subprocess output parsing (`_run_code` lines 563-649) -/

/-- Python `output.split('\n')`. -/
def splitLines : List Char → List (List Char)
  | [] => [[]]
  | c :: rest =>
    let r := splitLines rest
    if c = '\n' then [] :: r else (c :: r.headI) :: r.tail

/-- The `sections` dictionary, as an association list. -/
abbrev Sections := List (List Char × List Char)

def dictGet (d : Sections) (k : List Char) : Option (List Char) :=
  (d.find? fun p => p.1 == k).map (·.2)

def dictGetD (d : Sections) (k : List Char) : List Char :=
  (dictGet d k).getD []

def dictSet (d : Sections) (k v : List Char) : Sections :=
  match d with
  | [] => [(k, v)]
  | p :: rest => if p.1 == k then (k, v) :: rest else p :: dictSet rest k v

/-- `line.startswith('---') and line.endswith('---')`. -/
def isMarkerLine (l : List Char) : Bool :=
  (chars "---").isPrefixOf l && (chars "---").isSuffixOf l

/-- `line[3:-3].lower()`. -/
def markerName (l : List Char) : List Char :=
  pyLower ((l.take (l.length - 3)).drop 3)

structure SecState where
  dict : Sections
  current : Option (List Char)

/--
```python
if line.startswith('---') and line.endswith('---'):
    current_section = line[3:-3].lower()
elif current_section:
    sections[current_section] = sections.get(current_section, '') + line + '\n'
```
(`current_section` is falsy both as `None` and as the empty string.)
-/
def foldLine (st : SecState) (l : List Char) : SecState :=
  if isMarkerLine l then ⟨st.dict, some (markerName l)⟩
  else
    match st.current with
    | none => st
    | some name =>
      if name.isEmpty then st
      else ⟨dictSet st.dict name (dictGetD st.dict name ++ l ++ ['\n']), st.current⟩

/-- `sections = {"output": "", "errors": "", "status": "failure"}`. -/
def initSections : Sections :=
  [(chars "output", []), (chars "errors", []), (chars "status", chars "failure")]

def parseRunnerOutput (out : List Char) : Sections :=
  ((splitLines out).foldl foldLine ⟨initSections, none⟩).dict

structure ExecResult where
  success : Bool
  output : List Char
  errors : List Char
deriving DecidableEq

/-- What the spawned subprocess did: produced stdout, exceeded the fixed
30-second bound (`subprocess.TimeoutExpired`), or some other exception was
raised inside `_run_code`'s `try`. -/
inductive RunOutcome
  | completed (stdout : List Char)
  | timeout
  | failed (msg : List Char)
deriving DecidableEq

def timeoutMsg : List Char := chars "Code execution timed out after 30 seconds"

/-- `_run_code`'s result dictionary on each of its three paths
(lines 628-645). -/
def runCode : RunOutcome → ExecResult
  | .completed out =>
    let d := parseRunnerOutput out
    ⟨pyStrip (dictGetD d (chars "status")) == chars "success",
     pyStrip (dictGetD d (chars "output")),
     pyStrip (dictGetD d (chars "errors"))⟩
  | .timeout => ⟨false, [], timeoutMsg⟩
  | .failed msg => ⟨false, [], msg⟩

/-! ### The autonomous goal loop (`auto_achieve_goal` lines 699-805)

The Generator is external: each of the three `generate_response` call
sites is an oracle indexed by the iteration number (the prompt built from
the goal, code and feedback only influences the oracle's answer, which the
oracle already fixes).  The Executor's behaviour per iteration is likewise
an oracle.  File writes can fail per iteration; the loop body (lines
774-781) has no `try`, so a failed write propagates out of the loop
(caught only by the process-level handler at line 1006). -/

structure AutoEnv where
  run : Nat → RunOutcome
  evalExecResp : Nat → Option (List Char)
  evalCodeResp : Nat → Option (List Char)
  improveResp : Nat → Option (List Char)
  backupWriteFails : Nat → Bool
  targetWriteFails : Nat → Bool

/-- Observable actions of one loop run, in order. -/
inductive LoopEvent
  | runTarget (iteration : Nat) (result : ExecResult)
  | evalExecution (iteration : Nat)
  | evalCode (iteration : Nat)
  | improveCall (iteration : Nat)
  | backupWrite (iteration : Nat) (content : List Char)
  | targetWrite (content : List Char)
deriving DecidableEq

inductive LoopExit
  | converged (iteration : Nat)
  | improveFailed (iteration : Nat)
  | exhausted
  | ioError (iteration : Nat)
deriving DecidableEq

structure LoopResult where
  exit : LoopExit
  events : List LoopEvent
  finalCode : List Char
deriving DecidableEq

/-- Lines 746-750. -/
def combineFeedback (codeFb execFb : List Char) : List Char :=
  chars "Code Analysis:\n" ++ codeFb ++ chars "\n\nExecution Results:\n" ++ execFb

/--
The `while iteration <= self.max_iterations` loop, fuel = remaining
iterations (`fuel = max_iterations + 1 - iteration`, so fuel 0 is the
failed loop test, line 723).  Per iteration `i`:
run the file (728), evaluate execution (739), evaluate the code (742),
converge iff both evaluations achieved (745-754); otherwise improve
(761-764, `None` breaks the loop); otherwise — faithfully to the source
order at lines 770-781 — `current_code` is reassigned to the candidate
*before* the backup is written, the backup `.backup.{iteration}` is
written with `current_code`, then the target file is written.
The final unconditional run-and-report pass (lines 790-803) performs no
writes and is outside the model.
-/
def autoGo (env : AutoEnv) : Nat → Nat → List Char → Option (List Char) → LoopResult
  | 0, _i, code, _fb => ⟨LoopExit.exhausted, [], code⟩
  | r + 1, i, code, _fb =>
    let execResult := runCode (env.run i)
    let execEval := evaluateExecution (env.evalExecResp i)
    let codeEval := evaluateCode (env.evalCodeResp i)
    let base := [LoopEvent.runTarget i execResult, LoopEvent.evalExecution i,
                 LoopEvent.evalCode i]
    if execEval.goal_achieved && codeEval.goal_achieved then
      ⟨LoopExit.converged i, base, code⟩
    else
      match improveCode (env.improveResp i) with
      | none => ⟨LoopExit.improveFailed i, base ++ [LoopEvent.improveCall i], code⟩
      | some newCode =>
        if env.backupWriteFails i then
          ⟨LoopExit.ioError i, base ++ [LoopEvent.improveCall i], newCode⟩
        else if env.targetWriteFails i then
          ⟨LoopExit.ioError i,
           base ++ [LoopEvent.improveCall i, LoopEvent.backupWrite i newCode],
           newCode⟩
        else
          let rest := autoGo env r (i + 1) newCode
            (some (combineFeedback codeEval.feedback execEval.feedback))
          ⟨rest.exit,
           base ++ [LoopEvent.improveCall i, LoopEvent.backupWrite i newCode,
                    LoopEvent.targetWrite newCode] ++ rest.events,
           rest.finalCode⟩

/-- `auto_achieve_goal` after the initial read: `iteration = 1`,
`last_feedback = None`. -/
def autoAchieveGoal (env : AutoEnv) (originalCode : List Char)
    (maxIterations : Nat) : LoopResult :=
  autoGo env maxIterations 1 originalCode none

def isRunEvent : LoopEvent → Bool
  | .runTarget _ _ => true
  | _ => false

def isEvalExecEvent : LoopEvent → Bool
  | .evalExecution _ => true
  | _ => false

def isEvalCodeEvent : LoopEvent → Bool
  | .evalCode _ => true
  | _ => false

def isImproveEvent : LoopEvent → Bool
  | .improveCall _ => true
  | _ => false

def isBackupEvent : LoopEvent → Bool
  | .backupWrite _ _ => true
  | _ => false

def isTargetEvent : LoopEvent → Bool
  | .targetWrite _ => true
  | _ => false

/-! ### The interactive apply-with-restore path (`edit_file` lines 329-354) -/

structure EditFlags where
  backupFail : Bool
  writeFail : Bool
  scanFail : Bool
  restoreReadFail : Bool
  restoreWriteFail : Bool

structure EditFS where
  target : List Char
  backup : Option (List Char)
deriving DecidableEq

inductive EditOutcome
  | applied
  | restored
  | restoreFailed
deriving DecidableEq

/-- The inner `try` of the `except` branch: read the backup, write the
target; any failure is reported as a restore error (lines 347-354). -/
def editRestore (f : EditFlags) (fs : EditFS) : EditOutcome × EditFS :=
  match fs.backup with
  | none => (.restoreFailed, fs)
  | some b =>
    if f.restoreReadFail then (.restoreFailed, fs)
    else if f.restoreWriteFail then (.restoreFailed, fs)
    else (.restored, ⟨b, fs.backup⟩)

/-- The outer `try` (write backup, write target, rescan project) with the
`except` branch entering `editRestore` from whatever filesystem state the
failure left behind. -/
def editApply (originalCode newCode : List Char) (f : EditFlags) :
    EditOutcome × EditFS :=
  if f.backupFail then editRestore f ⟨originalCode, none⟩
  else if f.writeFail then editRestore f ⟨originalCode, some originalCode⟩
  else if f.scanFail then editRestore f ⟨newCode, some originalCode⟩
  else (.applied, ⟨newCode, some originalCode⟩)

/-! ## Lemmas about the split primitives -/

theorem isPrefixOf_self_append (l t : List Char) : l.isPrefixOf (l ++ t) = true := by
  induction l with
  | nil => simp [List.isPrefixOf]
  | cons c cs ih => simp [List.isPrefixOf, ih]

theorem splitAfter_self {sep : List Char} (b : List Char) (hsep : sep ≠ []) :
    splitAfter sep (sep ++ b) = some b := by
  cases sep with
  | nil => exact absurd rfl hsep
  | cons s sep' =>
    show splitAfter (s :: sep') (s :: (sep' ++ b)) = some b
    have hp : (s :: sep').isPrefixOf (s :: (sep' ++ b)) = true :=
      isPrefixOf_self_append (s :: sep') b
    rw [splitAfter, if_pos hp]
    simp

theorem splitBefore_self {sep : List Char} (b : List Char) (hsep : sep ≠ []) :
    splitBefore sep (sep ++ b) = [] := by
  cases sep with
  | nil => exact absurd rfl hsep
  | cons s sep' =>
    show splitBefore (s :: sep') (s :: (sep' ++ b)) = []
    have hp : (s :: sep').isPrefixOf (s :: (sep' ++ b)) = true :=
      isPrefixOf_self_append (s :: sep') b
    rw [splitBefore, if_pos hp]

theorem noEarlyMatch_head {sep : List Char} {c : Char} {a' b : List Char}
    (h : noEarlyMatch sep (c :: a') b) :
    sep.isPrefixOf (c :: (a' ++ b)) = false := by
  have := h 0 (by simp)
  simpa using this

theorem noEarlyMatch_tail {sep : List Char} {c : Char} {a' b : List Char}
    (h : noEarlyMatch sep (c :: a') b) : noEarlyMatch sep a' b := by
  intro i hi
  have := h (i + 1) (by simpa using Nat.succ_lt_succ hi)
  simpa using this

theorem splitAfter_append {sep : List Char} :
    ∀ (a b : List Char), noEarlyMatch sep a b →
      splitAfter sep (a ++ b) = splitAfter sep b := by
  intro a
  induction a with
  | nil => intro b _; rfl
  | cons c a' ih =>
    intro b h
    show splitAfter sep (c :: (a' ++ b)) = splitAfter sep b
    rw [splitAfter, if_neg (by simp [noEarlyMatch_head h])]
    exact ih b (noEarlyMatch_tail h)

theorem splitBefore_append {sep : List Char} :
    ∀ (a b : List Char), noEarlyMatch sep a b →
      splitBefore sep (a ++ b) = a ++ splitBefore sep b := by
  intro a
  induction a with
  | nil => intro b _; rfl
  | cons c a' ih =>
    intro b h
    show splitBefore sep (c :: (a' ++ b)) = c :: (a' ++ splitBefore sep b)
    rw [splitBefore, if_neg (by simp [noEarlyMatch_head h])]
    rw [ih b (noEarlyMatch_tail h)]

theorem splitAfter_mid {sep : List Char} (a b : List Char) (hsep : sep ≠ [])
    (h : noEarlyMatch sep a (sep ++ b)) :
    splitAfter sep (a ++ (sep ++ b)) = some b := by
  rw [splitAfter_append a (sep ++ b) h, splitAfter_self b hsep]

theorem splitBefore_mid {sep : List Char} (a b : List Char) (hsep : sep ≠ [])
    (h : noEarlyMatch sep a (sep ++ b)) :
    splitBefore sep (a ++ (sep ++ b)) = a := by
  rw [splitBefore_append a (sep ++ b) h, splitBefore_self b hsep, List.append_nil]

theorem occurs_nil {sep : List Char} (hsep : sep ≠ []) : occurs sep [] = false := by
  simp [occurs, splitAfter, hsep]

theorem occurs_cons (sep : List Char) (c : Char) (rest : List Char) :
    occurs sep (c :: rest) = (sep.isPrefixOf (c :: rest) || occurs sep rest) := by
  rw [occurs, splitAfter]
  by_cases h : sep.isPrefixOf (c :: rest)
  · simp [h]
  · simp [h, occurs]

theorem splitAfter_none {sep s : List Char} (h : occurs sep s = false) :
    splitAfter sep s = none := by
  cases hx : splitAfter sep s with
  | none => rfl
  | some t => rw [occurs, hx] at h; simp at h

theorem splitBefore_of_not_occurs {sep : List Char} :
    ∀ {s : List Char}, occurs sep s = false → splitBefore sep s = s := by
  intro s
  induction s with
  | nil => intro _; rfl
  | cons c rest ih =>
    intro h
    rw [occurs_cons] at h
    simp only [Bool.or_eq_false_iff] at h
    rw [splitBefore, if_neg (by simp [h.1]), ih h.2]

theorem occurs_of_prefix_drop {sep : List Char} :
    ∀ {s : List Char} {i : Nat}, i < s.length →
      sep.isPrefixOf (s.drop i) = true → occurs sep s = true := by
  intro s
  induction s with
  | nil => intro i hi; simp at hi
  | cons c rest ih =>
    intro i hi h
    cases i with
    | zero => rw [occurs_cons]; simp_all
    | succ j =>
      rw [occurs_cons]
      have : occurs sep rest = true := ih (by simpa using Nat.lt_of_succ_lt_succ hi) h
      simp [this]

theorem prefix_stop {sep : List Char} {c : Char} (hc : c ∉ sep) :
    ∀ {x y : List Char}, sep.isPrefixOf (x ++ c :: y) = true →
      sep.isPrefixOf x = true := by
  induction sep with
  | nil => intro x y _; cases x <;> rfl
  | cons s sep' ih =>
    intro x y h
    cases x with
    | nil =>
      simp only [List.nil_append, List.isPrefixOf, Bool.and_eq_true, beq_iff_eq] at h
      exact absurd (h.1 ▸ List.mem_cons_self s sep') hc
    | cons x0 x' =>
      simp only [List.cons_append, List.isPrefixOf, Bool.and_eq_true] at h ⊢
      exact ⟨h.1, ih (fun hm => hc (List.mem_cons_of_mem s hm)) h.2⟩

theorem head_not_mem {sep : List Char} {c : Char} {w : List Char}
    (hsep : sep ≠ []) (hc : c ∉ sep) : sep.isPrefixOf (c :: w) = false := by
  cases sep with
  | nil => exact absurd rfl hsep
  | cons s sep' =>
    simp only [List.isPrefixOf, Bool.and_eq_false_iff]
    left
    simp only [beq_eq_false_iff_ne, ne_eq]
    intro hsc
    exact hc (hsc ▸ List.mem_cons_self s sep')

theorem occurs_cons_of_not_mem {sep : List Char} {c : Char} {b : List Char}
    (hsep : sep ≠ []) (hc : c ∉ sep) : occurs sep (c :: b) = occurs sep b := by
  rw [occurs_cons, head_not_mem hsep hc, Bool.false_or]

theorem occurs_append_nl {sep : List Char} {a b : List Char}
    (hsep : sep ≠ []) (hnl : '\n' ∉ sep)
    (ha : occurs sep a = false) (hb : occurs sep b = false) :
    occurs sep (a ++ '\n' :: b) = false := by
  induction a with
  | nil =>
    simpa [occurs_cons_of_not_mem hsep hnl] using hb
  | cons c a' ih =>
    have h' : occurs sep a' = false := by
      rw [occurs_cons] at ha
      exact (Bool.or_eq_false_iff.mp ha).2
    show occurs sep (c :: (a' ++ '\n' :: b)) = false
    rw [occurs_cons, Bool.or_eq_false_iff]
    refine ⟨?_, ih h'⟩
    by_contra hpre
    have hpre' : sep.isPrefixOf (c :: (a' ++ '\n' :: b)) = true := by
      revert hpre; cases sep.isPrefixOf (c :: (a' ++ '\n' :: b)) <;> simp
    have : sep.isPrefixOf ((c :: a') ++ '\n' :: b) = true := by simpa using hpre'
    have hx : sep.isPrefixOf (c :: a') = true := prefix_stop hnl this
    have : occurs sep (c :: a') = true := by rw [occurs_cons, hx]; simp
    rw [ha] at this
    exact Bool.false_ne_true this

theorem noEarlyMatch_nil (sep b : List Char) : noEarlyMatch sep [] b := by
  intro i hi
  simp at hi

theorem noEarlyMatch_cons {sep : List Char} {c : Char} {z b : List Char}
    (hsep : sep ≠ []) (hc : c ∉ sep) (h : noEarlyMatch sep z b) :
    noEarlyMatch sep (c :: z) b := by
  intro i hi
  cases i with
  | zero => simpa using head_not_mem hsep hc
  | succ j =>
    have := h j (by simpa using Nat.lt_of_succ_lt_succ hi)
    simpa using this

theorem noEarlyMatch_append {sep : List Char} {x y b : List Char}
    (h1 : noEarlyMatch sep x (y ++ b)) (h2 : noEarlyMatch sep y b) :
    noEarlyMatch sep (x ++ y) b := by
  intro i hi
  by_cases hx : i < x.length
  · have := h1 i hx
    rwa [List.drop_append_of_le_length (Nat.le_of_lt hx), List.append_assoc]
  · have hix : x.length ≤ i := Nat.le_of_not_lt hx
    have hiy : i - x.length < y.length := by
      simp only [List.length_append] at hi
      omega
    have := h2 (i - x.length) hiy
    have hdrop : List.drop i (x ++ y) = List.drop (i - x.length) y := by
      have hi' : i = x.length + (i - x.length) := by omega
      rw [hi', List.drop_append]
      simp
    rwa [hdrop]

theorem noEarlyMatch_of_not_occurs_nl {sep x b' : List Char}
    (hnl : '\n' ∉ sep) (h : occurs sep x = false) :
    noEarlyMatch sep x ('\n' :: b') := by
  intro i hi
  by_contra hpre
  have hpre' : sep.isPrefixOf (List.drop i x ++ '\n' :: b') = true := by
    revert hpre; cases sep.isPrefixOf (List.drop i x ++ '\n' :: b') <;> simp
  have hx : sep.isPrefixOf (List.drop i x) = true := prefix_stop hnl hpre'
  have : occurs sep x = true := occurs_of_prefix_drop hi hx
  rw [h] at this
  exact Bool.false_ne_true this

theorem splitAfter_exists {sep : List Char} (x y : List Char) (hsep : sep ≠ []) :
    ∃ z, splitAfter sep (x ++ (sep ++ y)) = some z := by
  induction x with
  | nil => exact ⟨y, splitAfter_self y hsep⟩
  | cons c x' ih =>
    show ∃ z, splitAfter sep (c :: (x' ++ (sep ++ y))) = some z
    by_cases h : sep.isPrefixOf (c :: (x' ++ (sep ++ y))) = true
    · exact ⟨_, by rw [splitAfter, if_pos h]⟩
    · obtain ⟨z, hz⟩ := ih
      exact ⟨z, by rw [splitAfter, if_neg h, hz]⟩

theorem isPrefixOf_trans {a b c : List Char} (h1 : a.isPrefixOf b = true)
    (h2 : b.isPrefixOf c = true) : a.isPrefixOf c = true := by
  rw [List.isPrefixOf_iff_prefix] at h1 h2 ⊢
  exact h1.trans h2

theorem occurs_mono {sep1 sep2 s : List Char} (hp : sep1.isPrefixOf sep2 = true) :
    occurs sep2 s = true → occurs sep1 s = true := by
  induction s with
  | nil =>
    intro h
    by_cases h2 : sep2 = []
    · subst h2
      have : sep1 = [] := by
        cases sep1 with
        | nil => rfl
        | cons a as => simp [List.isPrefixOf] at hp
      simp [this, occurs, splitAfter]
    · rw [occurs_nil h2] at h; exact absurd h (by simp)
  | cons c rest ih =>
    intro h
    rw [occurs_cons] at h ⊢
    rcases Bool.or_eq_true_iff.mp h with h | h
    · rw [isPrefixOf_trans hp h]; simp
    · rw [ih h]; simp

/-! ## Lemmas about `pyStrip` -/

theorem lstrip_cons_ws {c : Char} {s : List Char} (h : isPyWs c = true) :
    lstrip (c :: s) = lstrip s := by
  simp [lstrip, List.dropWhile_cons, h]

theorem lstrip_cons_not_ws {c : Char} {s : List Char} (h : isPyWs c = false) :
    lstrip (c :: s) = c :: s := by
  simp [lstrip, List.dropWhile_cons, h]

theorem lstrip_append_of_ne {s u : List Char} (h : lstrip s ≠ []) :
    lstrip (s ++ u) = lstrip s ++ u := by
  induction s with
  | nil => exact absurd rfl h
  | cons c s' ih =>
    by_cases hc : isPyWs c = true
    · rw [lstrip_cons_ws hc] at h
      show lstrip (c :: (s' ++ u)) = _
      rw [lstrip_cons_ws hc, ih h, lstrip_cons_ws hc]
    · have hc' : isPyWs c = false := by revert hc; cases isPyWs c <;> simp
      show lstrip (c :: (s' ++ u)) = _
      rw [lstrip_cons_not_ws hc', lstrip_cons_not_ws hc']
      simp

theorem lstrip_append_of_nil {s u : List Char} (h : lstrip s = []) :
    lstrip (s ++ u) = lstrip u := by
  induction s with
  | nil => rfl
  | cons c s' ih =>
    by_cases hc : isPyWs c = true
    · rw [lstrip_cons_ws hc] at h
      show lstrip (c :: (s' ++ u)) = _
      rw [lstrip_cons_ws hc]
      exact ih h
    · have hc' : isPyWs c = false := by revert hc; cases isPyWs c <;> simp
      rw [lstrip_cons_not_ws hc'] at h
      simp at h

theorem pyStrip_cons_ws {c : Char} {s : List Char} (h : isPyWs c = true) :
    pyStrip (c :: s) = pyStrip s := by
  rw [pyStrip, pyStrip, lstrip_cons_ws h]

theorem rstrip_append_ws {c : Char} {s : List Char} (h : isPyWs c = true) :
    rstrip (s ++ [c]) = rstrip s := by
  rw [rstrip, rstrip, List.reverse_append]
  simp [lstrip_cons_ws h]

theorem pyStrip_append_ws {c : Char} {s : List Char} (h : isPyWs c = true) :
    pyStrip (s ++ [c]) = pyStrip s := by
  rw [pyStrip, pyStrip]
  by_cases hs : lstrip s = []
  · rw [lstrip_append_of_nil hs, hs, lstrip_cons_ws h]
    rfl
  · rw [lstrip_append_of_ne hs, rstrip_append_ws h]

theorem pyStrip_cons_head {c : Char} {s : List Char} (h : isPyWs c = false) :
    ∃ u, pyStrip (c :: s) = c :: u := by
  rw [pyStrip, lstrip_cons_not_ws h, rstrip, List.reverse_cons]
  by_cases hs : lstrip s.reverse = []
  · rw [lstrip_append_of_nil hs, lstrip_cons_not_ws h]
    exact ⟨[], rfl⟩
  · rw [lstrip_append_of_ne hs, List.reverse_append]
    exact ⟨(lstrip s.reverse).reverse, rfl⟩

/-! ## Claim theorems -/

/-- Claim C4: for a well-formed Generator response containing both
evaluation delimiters — `pre ++ "---ACHIEVED---" ++ mid ++ "---FEEDBACK---"
++ post` with no delimiter occurrence starting inside `pre` or `mid` and no
further `---ACHIEVED---` occurrence — the parse returns
`goal_achieved = true` iff the text between the two delimiters, trimmed and
then lower-cased, is exactly "yes". -/
theorem C4_achieved_iff_yes (pre mid post : List Char)
    (h1 : noEarlyMatch dACHIEVED pre (dACHIEVED ++ (mid ++ (dFEEDBACK ++ post))))
    (h2 : occurs dACHIEVED (mid ++ (dFEEDBACK ++ post)) = false)
    (h3 : noEarlyMatch dFEEDBACK mid (dFEEDBACK ++ post)) :
    (parseEvaluation
        (pre ++ (dACHIEVED ++ (mid ++ (dFEEDBACK ++ post))))).goal_achieved = true
      ↔ pyLower (pyStrip mid) = chars "yes" := by
  have hA : dACHIEVED ≠ [] := by decide
  have hF : dFEEDBACK ≠ [] := by decide
  have hafter :
      splitAfter dACHIEVED (pre ++ (dACHIEVED ++ (mid ++ (dFEEDBACK ++ post))))
        = some (mid ++ (dFEEDBACK ++ post)) :=
    splitAfter_mid pre _ hA h1
  have hassoc :
      pre ++ (dACHIEVED ++ (mid ++ (dFEEDBACK ++ post)))
        = (pre ++ (dACHIEVED ++ mid)) ++ (dFEEDBACK ++ post) := by
    simp [List.append_assoc]
  obtain ⟨u, hu⟩ := splitAfter_exists (pre ++ (dACHIEVED ++ mid)) post hF
  have hfb :
      splitAfter dFEEDBACK (pre ++ (dACHIEVED ++ (mid ++ (dFEEDBACK ++ post))))
        = some u := by rw [hassoc]; exact hu
  simp only [parseEvaluation, hafter, hfb]
  rw [splitBefore_of_not_occurs h2, splitBefore_mid mid post hF h3]
  simp [beq_iff_eq]

/-- Claim C5 (counterexample): when the Generator produced no response at
all, `_evaluate_execution` returns feedback "Failed to evaluate execution",
not the fixed fail-closed value "Failed to parse evaluation" that the
claim asserts. -/
theorem C5_counterexample :
    (evaluateExecution none).feedback ≠ failParseMsg
      ∧ evaluateExecution none
          = ⟨false, chars "Failed to evaluate execution"⟩ := by
  constructor
  · decide
  · rfl

/-- Claim C5 (amended): on any response in which either evaluation
delimiter is missing, the (total) evaluation parse returns the fixed
fail-closed result `{achieved: false, feedback: "Failed to parse
evaluation"}`; when the Generator produced no response at all (or an empty
one), the evaluation functions instead return `achieved = false` with the
fixed feedback "Failed to evaluate execution" / "Failed to evaluate code"
respectively. -/
theorem C5_fail_closed :
    (∀ r : List Char,
        occurs dACHIEVED r = false ∨ occurs dFEEDBACK r = false →
        parseEvaluation r = ⟨false, failParseMsg⟩)
    ∧ evaluateExecution none = ⟨false, chars "Failed to evaluate execution"⟩
    ∧ evaluateCode none = ⟨false, chars "Failed to evaluate code"⟩
    ∧ evaluateExecution (some []) = ⟨false, chars "Failed to evaluate execution"⟩
    ∧ evaluateCode (some []) = ⟨false, chars "Failed to evaluate code"⟩ := by
  refine ⟨?_, rfl, rfl, rfl, rfl⟩
  intro r h
  rcases h with h | h
  · rw [parseEvaluation, splitAfter_none h]
  · rw [parseEvaluation]
    cases splitAfter dACHIEVED r with
    | none => rfl
    | some t => rw [splitAfter_none h]

/-- A template region `"\n" ++ t ++ "\n\n"`: a newline-free `sep` absent
from `t` cannot start an occurrence anywhere inside the region. -/
theorem noEarlyMatch_region {sep : List Char} (t b : List Char)
    (hsep : sep ≠ []) (hnl : '\n' ∉ sep) (ht : occurs sep t = false) :
    noEarlyMatch sep ('\n' :: (t ++ '\n' :: '\n' :: ([] : List Char))) b := by
  apply noEarlyMatch_cons hsep hnl
  apply noEarlyMatch_append (x := t) (y := ['\n', '\n'])
  · exact noEarlyMatch_of_not_occurs_nl hnl ht
  · exact noEarlyMatch_cons hsep hnl
      (noEarlyMatch_cons hsep hnl (noEarlyMatch_nil sep b))

/-- Stripping a template region recovers the stripped body. -/
theorem pyStrip_region (t : List Char) :
    pyStrip ('\n' :: (t ++ '\n' :: '\n' :: ([] : List Char))) = pyStrip t := by
  rw [pyStrip_cons_ws (by decide)]
  rw [show t ++ '\n' :: '\n' :: ([] : List Char) = (t ++ ['\n']) ++ ['\n'] by simp]
  rw [pyStrip_append_ws (by decide), pyStrip_append_ws (by decide)]

/-- A newline-free `sep` absent from `x`, `d` and `y` does not occur in
`x ++ "\n\n" ++ d ++ "\n" ++ y`. -/
theorem occurs_block {sep : List Char} (x d y : List Char)
    (hsep : sep ≠ []) (hnl : '\n' ∉ sep)
    (hx : occurs sep x = false) (hd : occurs sep d = false)
    (hy : occurs sep y = false) :
    occurs sep (x ++ '\n' :: '\n' :: (d ++ '\n' :: y)) = false := by
  have hdy : occurs sep (d ++ '\n' :: y) = false := occurs_append_nl hsep hnl hd hy
  have h2 : occurs sep ('\n' :: (d ++ '\n' :: y)) = false := by
    rw [occurs_cons_of_not_mem hsep hnl]; exact hdy
  exact occurs_append_nl hsep hnl hx h2

/-- Claim C8: for delimiter-free section texts E, C, N, parsing the edit
response assembled from the three-marker template recovers exactly
(E, C, N) up to surrounding-whitespace trimming. -/
theorem C8_parse_edit_left_inverse (E C N : List Char)
    (hE : delimiterFree E) (hC : delimiterFree C) (hN : delimiterFree N) :
    parseEdit (mkEditResponse E C N) = some ⟨pyStrip E, pyStrip C, pyStrip N⟩ := by
  obtain ⟨hE1, hE2, hE3⟩ := hE
  obtain ⟨hC1, hC2, hC3⟩ := hC
  obtain ⟨hN1, hN2, hN3⟩ := hN
  -- the pieces of the assembled response
  have hmid2 : occurs dEXPLANATION (C ++ '\n' :: '\n' :: (dNOTES ++ '\n' :: N)) = false :=
    occurs_block C dNOTES N (by decide) (by decide) hC1 (by decide) hN1
  -- splitAfter at ---EXPLANATION--- : the response starts with it
  have hTE : splitAfter dEXPLANATION (mkEditResponse E C N)
      = some ('\n' :: (E ++ '\n' :: '\n' ::
          (dCODE ++ '\n' :: (C ++ '\n' :: '\n' :: (dNOTES ++ '\n' :: N))))) := by
    rw [mkEditResponse]
    exact splitAfter_self _ (by decide)
  -- ---EXPLANATION--- occurs nowhere in what follows it
  have hrestE : occurs dEXPLANATION ('\n' :: (E ++ '\n' :: '\n' ::
      (dCODE ++ '\n' :: (C ++ '\n' :: '\n' :: (dNOTES ++ '\n' :: N))))) = false := by
    rw [occurs_cons_of_not_mem (by decide) (by decide)]
    exact occurs_block E dCODE _ (by decide) (by decide) hE1 (by decide) hmid2
  -- the region before ---CODE--- inside the tail after ---EXPLANATION---
  have hnemC : noEarlyMatch dCODE ('\n' :: (E ++ '\n' :: '\n' :: ([] : List Char)))
      (dCODE ++ '\n' :: (C ++ '\n' :: '\n' :: (dNOTES ++ '\n' :: N))) :=
    noEarlyMatch_region E _ (by decide) (by decide) hE2
  have hshape1 : '\n' :: (E ++ '\n' :: '\n' ::
        (dCODE ++ '\n' :: (C ++ '\n' :: '\n' :: (dNOTES ++ '\n' :: N))))
      = ('\n' :: (E ++ '\n' :: '\n' :: ([] : List Char)))
        ++ (dCODE ++ ('\n' :: (C ++ '\n' :: '\n' :: (dNOTES ++ '\n' :: N)))) := by
    simp [List.append_assoc]
  have hBE : splitBefore dCODE ('\n' :: (E ++ '\n' :: '\n' ::
      (dCODE ++ '\n' :: (C ++ '\n' :: '\n' :: (dNOTES ++ '\n' :: N)))))
      = '\n' :: (E ++ '\n' :: '\n' :: ([] : List Char)) := by
    rw [hshape1]
    exact splitBefore_mid _ _ (by decide) hnemC
  -- splitAfter at ---CODE---
  have hnemC2 : noEarlyMatch dCODE
      (dEXPLANATION ++ ('\n' :: (E ++ '\n' :: '\n' :: ([] : List Char))))
      (dCODE ++ ('\n' :: (C ++ '\n' :: '\n' :: (dNOTES ++ '\n' :: N)))) := by
    apply noEarlyMatch_append
    · exact noEarlyMatch_of_not_occurs_nl (by decide) (by decide)
    · exact hnemC
  have hshape2 : mkEditResponse E C N
      = (dEXPLANATION ++ ('\n' :: (E ++ '\n' :: '\n' :: ([] : List Char))))
        ++ (dCODE ++ ('\n' :: (C ++ '\n' :: '\n' :: (dNOTES ++ '\n' :: N)))) := by
    rw [mkEditResponse]
    simp [List.append_assoc]
  have hTC : splitAfter dCODE (mkEditResponse E C N)
      = some ('\n' :: (C ++ '\n' :: '\n' :: (dNOTES ++ '\n' :: N))) := by
    rw [hshape2]
    exact splitAfter_mid _ _ (by decide) hnemC2
  -- ---CODE--- occurs nowhere in what follows it
  have hrestC : occurs dCODE ('\n' :: (C ++ '\n' :: '\n' :: (dNOTES ++ '\n' :: N)))
      = false := by
    rw [occurs_cons_of_not_mem (by decide) (by decide)]
    exact occurs_block C dNOTES N (by decide) (by decide) hC2 (by decide) hN2
  -- the region before ---NOTES--- inside the tail after ---CODE---
  have hnemN : noEarlyMatch dNOTES ('\n' :: (C ++ '\n' :: '\n' :: ([] : List Char)))
      (dNOTES ++ '\n' :: N) :=
    noEarlyMatch_region C _ (by decide) (by decide) hC3
  have hshape3 : '\n' :: (C ++ '\n' :: '\n' :: (dNOTES ++ '\n' :: N))
      = ('\n' :: (C ++ '\n' :: '\n' :: ([] : List Char))) ++ (dNOTES ++ ('\n' :: N)) := by
    simp [List.append_assoc]
  have hBC : splitBefore dNOTES ('\n' :: (C ++ '\n' :: '\n' :: (dNOTES ++ '\n' :: N)))
      = '\n' :: (C ++ '\n' :: '\n' :: ([] : List Char)) := by
    rw [hshape3]
    exact splitBefore_mid _ _ (by decide) hnemN
  -- splitAfter at ---NOTES---
  have hnemN2 : noEarlyMatch dNOTES
      ((dEXPLANATION ++ ('\n' :: (E ++ '\n' :: '\n' :: ([] : List Char))))
        ++ (dCODE ++ ('\n' :: (C ++ '\n' :: '\n' :: ([] : List Char)))))
      (dNOTES ++ ('\n' :: N)) := by
    apply noEarlyMatch_append
    · apply noEarlyMatch_append
      · exact noEarlyMatch_of_not_occurs_nl (by decide) (by decide)
      · exact noEarlyMatch_region E _ (by decide) (by decide) hE3
    · apply noEarlyMatch_append
      · exact noEarlyMatch_of_not_occurs_nl (by decide) (by decide)
      · exact noEarlyMatch_region C _ (by decide) (by decide) hC3
  have hshape4 : mkEditResponse E C N
      = ((dEXPLANATION ++ ('\n' :: (E ++ '\n' :: '\n' :: ([] : List Char))))
          ++ (dCODE ++ ('\n' :: (C ++ '\n' :: '\n' :: ([] : List Char)))))
        ++ (dNOTES ++ ('\n' :: N)) := by
    rw [mkEditResponse]
    simp [List.append_assoc]
  have hTN : splitAfter dNOTES (mkEditResponse E C N) = some ('\n' :: N) := by
    rw [hshape4]
    exact splitAfter_mid _ _ (by decide) hnemN2
  -- ---NOTES--- occurs nowhere in what follows it
  have hrestN : occurs dNOTES ('\n' :: N) = false := by
    rw [occurs_cons_of_not_mem (by decide) (by decide)]
    exact hN3
  -- assemble
  simp only [parseEdit, hTE, hTC, hTN]
  rw [splitBefore_of_not_occurs hrestE, hBE,
      splitBefore_of_not_occurs hrestC, hBC,
      splitBefore_of_not_occurs hrestN]
  rw [pyStrip_region, pyStrip_region, pyStrip_cons_ws (by decide)]

/-- Claim C6 (counterexample): on a fenced block tagged with a language
other than python, the language tag is part of the returned text — the
extraction does not return the block's interior, so the first tier is not
triggered by arbitrary language tags. -/
theorem C6_counterexample :
    extractCode (chars "```js\nX\n```") = chars "js\nX"
      ∧ chars "js\nX" ≠ chars "X" := by
  constructor
  · decide
  · decide

/-- Claim C6 (amended): the three-tier fallback with exact precedence holds
with the first tier keyed to the literal tag "```python" (the only
language tag the code checks): if the response contains "```python",
return the text between it and the next fence; otherwise, if it contains
any fence, return the interior of the first fenced block; otherwise return
the whole trimmed response. -/
theorem C6_extract_code_precedence :
    (∀ a b c : List Char,
        noEarlyMatch pythonFence a (pythonFence ++ (b ++ (plainFence ++ c))) →
        occurs pythonFence (b ++ (plainFence ++ c)) = false →
        noEarlyMatch plainFence b (plainFence ++ c) →
        extractCode (a ++ (pythonFence ++ (b ++ (plainFence ++ c)))) = pyStrip b)
    ∧ (∀ a b c : List Char,
        occurs pythonFence (a ++ (plainFence ++ (b ++ (plainFence ++ c)))) = false →
        noEarlyMatch plainFence a (plainFence ++ (b ++ (plainFence ++ c))) →
        noEarlyMatch plainFence b (plainFence ++ c) →
        extractCode (a ++ (plainFence ++ (b ++ (plainFence ++ c)))) = pyStrip b)
    ∧ (∀ r : List Char, occurs plainFence r = false →
        extractCode r = pyStrip r) := by
  refine ⟨?_, ?_, ?_⟩
  · intro a b c h1 h2 h3
    have hafter := splitAfter_mid a (b ++ (plainFence ++ c)) (by decide) h1
    simp only [extractCode, hafter]
    rw [splitBefore_of_not_occurs h2, splitBefore_mid b c (by decide) h3]
  · intro a b c h1 h2 h3
    have hafter := splitAfter_mid a (b ++ (plainFence ++ c)) (by decide) h2
    simp only [extractCode, splitAfter_none h1, hafter]
    rw [splitBefore_mid b c (by decide) h3]
  · intro r h
    have hpy : occurs pythonFence r = false := by
      by_contra hx
      have hx' : occurs pythonFence r = true := by
        revert hx; cases occurs pythonFence r <;> simp
      have : occurs plainFence r = true := occurs_mono (by decide) hx'
      rw [h] at this
      exact Bool.false_ne_true this
    simp only [extractCode, splitAfter_none hpy, splitAfter_none h]

theorem dictGet_dictSet_self (d : Sections) (k v : List Char) :
    dictGet (dictSet d k v) k = some v := by
  induction d with
  | nil => simp [dictSet, dictGet, List.find?]
  | cons p rest ih =>
    by_cases h : p.1 == k
    · simp [dictSet, h, dictGet, List.find?]
    · simp only [dictSet, h]
      rw [if_neg (by simp [h])]
      simp only [dictGet, List.find?, h]
      exact ih

theorem dictGet_dictSet_ne (d : Sections) (k k' v : List Char) (h : k ≠ k') :
    dictGet (dictSet d k v) k' = dictGet d k' := by
  induction d with
  | nil =>
    have hk : (k == k') = false := by simpa using h
    simp [dictSet, dictGet, List.find?, hk]
  | cons p rest ih =>
    by_cases hp : p.1 == k
    · have hp' : p.1 = k := by simpa using hp
      simp only [dictSet, hp, if_pos rfl]
      simp only [dictGet, List.find?]
      have hk : (k == k') = false := by simpa using h
      have hpk : (p.1 == k') = false := by simp [hp', hk]
      rw [hk, hpk]
    · simp only [dictSet]
      rw [if_neg (by simp [hp])]
      simp only [dictGet, List.find?]
      by_cases hq : p.1 == k'
      · rw [hq]
      · have hq' : (p.1 == k') = false := by revert hq; cases p.1 == k' <;> simp
        rw [hq']
        exact ih

/-- The accumulated status section always extends the seeded "failure". -/
theorem status_extends (lines : List (List Char)) :
    ∀ st : SecState,
      (∃ t, dictGetD st.dict (chars "status") = chars "failure" ++ t) →
      ∃ t, dictGetD ((lines.foldl foldLine st)).dict (chars "status")
          = chars "failure" ++ t := by
  induction lines with
  | nil => intro st h; exact h
  | cons l rest ih =>
    intro st h
    apply ih
    by_cases hm : isMarkerLine l = true
    · simpa [foldLine, hm] using h
    · have hm' : isMarkerLine l = false := by revert hm; cases isMarkerLine l <;> simp
      cases hc : st.current with
      | none => simpa [foldLine, hm', hc] using h
      | some name =>
        by_cases hne : name.isEmpty = true
        · simpa [foldLine, hm', hc, hne] using h
        · have hne' : name.isEmpty = false := by revert hne; cases name.isEmpty <;> simp
          have hred : foldLine st l
              = ⟨dictSet st.dict name (dictGetD st.dict name ++ l ++ ['\n']),
                 some name⟩ := by
            simp [foldLine, hm', hc, hne']
          rw [hred]
          by_cases hk : name = chars "status"
          · subst hk
            obtain ⟨t, ht⟩ := h
            refine ⟨t ++ l ++ ['\n'], ?_⟩
            simp only [dictGetD]
            have ht' : (dictGet st.dict (chars "status")).getD []
                = chars "failure" ++ t := ht
            rw [dictGet_dictSet_self, Option.getD_some, ht']
            simp [List.append_assoc]
          · simp only [dictGetD]
            rw [dictGet_dictSet_ne _ _ _ _ hk]
            exact h

/-- `_run_code`'s parsed status entry always begins with "failure". -/
theorem status_always_failure (out : List Char) :
    ∃ t, dictGetD (parseRunnerOutput out) (chars "status")
        = chars "failure" ++ t := by
  rw [parseRunnerOutput]
  exact status_extends (splitLines out) ⟨initSections, none⟩ ⟨[], by decide⟩

/-- Claim C10: `_run_code` is total over its three paths — it always
returns a record with the fields success/output/errors; the timeout path
and the internal-exception path yield `success = false` together with the
error text; on the parse path, `success = true` iff the stripped status
section equals "success", and in fact the seeded section dictionary makes
`success` identically false (the accumulated status entry always extends
the initial "failure"). -/
theorem C10_run_code_safety :
    runCode RunOutcome.timeout = ⟨false, [], timeoutMsg⟩
    ∧ (∀ msg, runCode (RunOutcome.failed msg) = ⟨false, [], msg⟩)
    ∧ (∀ out, (runCode (RunOutcome.completed out)).success = true
          ↔ pyStrip (dictGetD (parseRunnerOutput out) (chars "status"))
              = chars "success")
    ∧ (∀ out, (runCode (RunOutcome.completed out)).success = false) := by
  refine ⟨rfl, fun msg => rfl, fun out => ?_, fun out => ?_⟩
  · simp only [runCode]
    exact beq_iff_eq
  · simp only [runCode]
    obtain ⟨t, ht⟩ := status_always_failure out
    rw [ht]
    obtain ⟨u, hu⟩ := pyStrip_cons_head (c := 'f') (s := chars "ailure" ++ t)
      (by decide)
    have hcast : chars "failure" ++ t = 'f' :: (chars "ailure" ++ t) := rfl
    rw [hcast, hu]
    rw [beq_eq_false_iff_ne]
    intro heq
    have h2 := congrArg (fun l => l.headI) heq
    simp [chars] at h2

/-- Iteration numbers never decrease: a convergence reported by a loop
started at iteration `i` happened at some iteration `j ≥ i`. -/
theorem autoGo_converged_ge (env : AutoEnv) :
    ∀ r i code fb j,
      (autoGo env r i code fb).exit = LoopExit.converged j → i ≤ j := by
  intro r
  induction r with
  | zero =>
    intro i code fb j h
    simp [autoGo] at h
  | succ r ih =>
    intro i code fb j h
    simp only [autoGo] at h
    by_cases hg : ((evaluateExecution (env.evalExecResp i)).goal_achieved
        && (evaluateCode (env.evalCodeResp i)).goal_achieved) = true
    · rw [if_pos hg] at h
      simp at h
      omega
    · rw [if_neg hg] at h
      cases himp : improveCode (env.improveResp i) with
      | none => rw [himp] at h; simp at h
      | some c =>
        simp only [himp] at h
        by_cases hbw : env.backupWriteFails i = true
        · rw [if_pos hbw] at h; simp at h
        · rw [if_neg hbw] at h
          by_cases htw : env.targetWriteFails i = true
          · rw [if_pos htw] at h; simp at h
          · rw [if_neg htw] at h
            simp only at h
            have := ih (i + 1) c
              (some (combineFeedback (evaluateCode (env.evalCodeResp i)).feedback
                (evaluateExecution (env.evalExecResp i)).feedback)) j h
            omega

/-- When every execution evaluation parses to not-achieved, every
improvement call succeeds and no write fails, a loop with `r` remaining
iterations runs all of them — each with one run, two evaluations, one
improvement, one backup write and one target write — and exits exhausted. -/
theorem autoGo_all_false (env : AutoEnv)
    (hex : ∀ i, (evaluateExecution (env.evalExecResp i)).goal_achieved = false)
    (him : ∀ i, (improveCode (env.improveResp i)).isSome = true)
    (hbw : ∀ i, env.backupWriteFails i = false)
    (htw : ∀ i, env.targetWriteFails i = false) :
    ∀ r i code fb,
      (autoGo env r i code fb).exit = LoopExit.exhausted
      ∧ (autoGo env r i code fb).events.countP isRunEvent = r
      ∧ (autoGo env r i code fb).events.countP isEvalExecEvent = r
      ∧ (autoGo env r i code fb).events.countP isEvalCodeEvent = r
      ∧ (autoGo env r i code fb).events.countP isImproveEvent = r
      ∧ (autoGo env r i code fb).events.countP isBackupEvent = r
      ∧ (autoGo env r i code fb).events.countP isTargetEvent = r := by
  intro r
  induction r with
  | zero => intro i code fb; simp [autoGo]
  | succ r ih =>
    intro i code fb
    obtain ⟨c, hc⟩ := Option.isSome_iff_exists.mp (him i)
    have hg : ((evaluateExecution (env.evalExecResp i)).goal_achieved
        && (evaluateCode (env.evalCodeResp i)).goal_achieved) = false := by
      rw [hex i]; rfl
    obtain ⟨h1, h2, h3, h4, h5, h6, h7⟩ := ih (i + 1) c
      (some (combineFeedback (evaluateCode (env.evalCodeResp i)).feedback
        (evaluateExecution (env.evalExecResp i)).feedback))
    simp only [autoGo, hg, hc, hbw i, htw i, Bool.false_eq_true, if_false]
    refine ⟨h1, ?_, ?_, ?_, ?_, ?_, ?_⟩ <;>
      simp [List.countP_append, List.countP_cons, isRunEvent, isEvalExecEvent,
        isEvalCodeEvent, isImproveEvent, isBackupEvent, isTargetEvent,
        h2, h3, h4, h5, h6, h7]

/-- Every `runTarget` event records exactly `runCode` applied to what the
Executor did at that iteration. -/
theorem autoGo_runTarget_mem (env : AutoEnv) :
    ∀ r i code fb j res,
      LoopEvent.runTarget j res ∈ (autoGo env r i code fb).events →
      res = runCode (env.run j) := by
  intro r
  induction r with
  | zero =>
    intro i code fb j res h
    simp [autoGo] at h
  | succ r ih =>
    intro i code fb j res h
    simp only [autoGo] at h
    by_cases hg : ((evaluateExecution (env.evalExecResp i)).goal_achieved
        && (evaluateCode (env.evalCodeResp i)).goal_achieved) = true
    · rw [if_pos hg] at h
      simp at h
      obtain ⟨hj, hres⟩ := h
      subst hj
      exact hres
    · rw [if_neg hg] at h
      cases himp : improveCode (env.improveResp i) with
      | none =>
        rw [himp] at h
        simp at h
        obtain ⟨hj, hres⟩ := h
        subst hj
        exact hres
      | some c =>
        simp only [himp] at h
        by_cases hbw : env.backupWriteFails i = true
        · rw [if_pos hbw] at h
          simp at h
          obtain ⟨hj, hres⟩ := h
          subst hj
          exact hres
        · rw [if_neg hbw] at h
          by_cases htw : env.targetWriteFails i = true
          · rw [if_pos htw] at h
            simp at h
            obtain ⟨hj, hres⟩ := h
            subst hj
            exact hres
          · rw [if_neg htw] at h
            simp at h
            rcases h with ⟨hj, hres⟩ | h
            · subst hj
              exact hres
            · exact ih _ _ _ _ _ h

/-- Claim C1 (the code evaluated at the failing input): starting from file
content "A" with the improvement step producing "B" at iteration 1 (and
evaluations reporting not-achieved), the loop writes the backup tagged 1
with the candidate code "B" — `current_code` is reassigned before the
backup write at lines 770-777 — not with the previous currentCode "A". -/
theorem C1_backup_contains_candidate :
    (autoAchieveGoal
        ⟨fun _ => RunOutcome.timeout, fun _ => none, fun _ => none,
         fun _ => some (chars "B"), fun _ => false, fun _ => false⟩
        (chars "A") 1).events
      = [LoopEvent.runTarget 1 ⟨false, [], timeoutMsg⟩,
         LoopEvent.evalExecution 1, LoopEvent.evalCode 1,
         LoopEvent.improveCall 1,
         LoopEvent.backupWrite 1 (chars "B"),
         LoopEvent.targetWrite (chars "B")]
    ∧ chars "B" ≠ chars "A" := by
  constructor
  · decide
  · decide

/-- Claim C2: with `maxIterations = k ≥ 1`, every evaluation reporting
not-achieved, every improvement call succeeding and no write failing, the
loop performs exactly `k` evaluate/improve/apply cycles — `k` execution
evaluations, `k` code evaluations, `k` improvement calls, `k` backup
writes and `k` target writes — and terminates exhausted. -/
theorem C2_iteration_budget (env : AutoEnv) (originalCode : List Char) (k : Nat)
    (hk : 1 ≤ k)
    (hex : ∀ i, (evaluateExecution (env.evalExecResp i)).goal_achieved = false)
    (hco : ∀ i, (evaluateCode (env.evalCodeResp i)).goal_achieved = false)
    (him : ∀ i, (improveCode (env.improveResp i)).isSome = true)
    (hbw : ∀ i, env.backupWriteFails i = false)
    (htw : ∀ i, env.targetWriteFails i = false) :
    (autoAchieveGoal env originalCode k).exit = LoopExit.exhausted
    ∧ (autoAchieveGoal env originalCode k).events.countP isEvalExecEvent = k
    ∧ (autoAchieveGoal env originalCode k).events.countP isEvalCodeEvent = k
    ∧ (autoAchieveGoal env originalCode k).events.countP isImproveEvent = k
    ∧ (autoAchieveGoal env originalCode k).events.countP isBackupEvent = k
    ∧ (autoAchieveGoal env originalCode k).events.countP isTargetEvent = k := by
  obtain ⟨h1, _h2, h3, h4, h5, h6, h7⟩ :=
    autoGo_all_false env hex him hbw htw k 1 originalCode none
  exact ⟨h1, h3, h4, h5, h6, h7⟩

/-- Claim C3: an iteration `i` of the autonomous loop terminates the loop
with convergence at `i` if and only if both the execution evaluation and
the code evaluation report achieved for that iteration. -/
theorem C3_convergence_iff (env : AutoEnv) (i r : Nat) (code : List Char)
    (fb : Option (List Char)) :
    (autoGo env (r + 1) i code fb).exit = LoopExit.converged i
      ↔ ((evaluateExecution (env.evalExecResp i)).goal_achieved = true
          ∧ (evaluateCode (env.evalCodeResp i)).goal_achieved = true) := by
  constructor
  · intro h
    by_cases hg : ((evaluateExecution (env.evalExecResp i)).goal_achieved
        && (evaluateCode (env.evalCodeResp i)).goal_achieved) = true
    · simpa [Bool.and_eq_true] using hg
    · exfalso
      simp only [autoGo] at h
      rw [if_neg hg] at h
      cases himp : improveCode (env.improveResp i) with
      | none => rw [himp] at h; simp at h
      | some c =>
        simp only [himp] at h
        by_cases hbw : env.backupWriteFails i = true
        · rw [if_pos hbw] at h; simp at h
        · rw [if_neg hbw] at h
          by_cases htw : env.targetWriteFails i = true
          · rw [if_pos htw] at h; simp at h
          · rw [if_neg htw] at h
            simp only at h
            have := autoGo_converged_ge env r (i + 1) c
              (some (combineFeedback (evaluateCode (env.evalCodeResp i)).feedback
                (evaluateExecution (env.evalExecResp i)).feedback)) i h
            omega
  · intro h
    obtain ⟨h1, h2⟩ := h
    simp [autoGo, h1, h2]

/-- Claim C7: a run that exceeds the 30-second bound is returned as the
failed execution record (success = false with the timeout message) rather
than raising; in a loop whose every run times out (evaluations
not-achieved, improvements succeeding, writes succeeding), each iteration
still performs its evaluation and improvement steps, every recorded run
result is the timeout record, and the loop continues to the full
iteration budget. -/
theorem C7_timeout_recovered :
    runCode RunOutcome.timeout = ⟨false, [], timeoutMsg⟩
    ∧ (∀ (env : AutoEnv) (code : List Char) (k : Nat),
        (∀ i, env.run i = RunOutcome.timeout) →
        (∀ i, (evaluateExecution (env.evalExecResp i)).goal_achieved = false) →
        (∀ i, (improveCode (env.improveResp i)).isSome = true) →
        (∀ i, env.backupWriteFails i = false) →
        (∀ i, env.targetWriteFails i = false) →
        (autoAchieveGoal env code k).exit = LoopExit.exhausted
        ∧ (autoAchieveGoal env code k).events.countP isImproveEvent = k
        ∧ (∀ j res,
            LoopEvent.runTarget j res ∈ (autoAchieveGoal env code k).events →
            res = ⟨false, [], timeoutMsg⟩)) := by
  refine ⟨rfl, ?_⟩
  intro env code k htm hex him hbw htw
  obtain ⟨h1, _, _, _, h5, _, _⟩ :=
    autoGo_all_false env hex him hbw htw k 1 code none
  refine ⟨h1, h5, ?_⟩
  intro j res hmem
  have hres := autoGo_runTarget_mem env k 1 code none j res hmem
  rw [hres, htm j]
  rfl

/-- Claim C9 (counterexample): in the autonomous loop, when the target
write fails at iteration 1 after the backup was written, the loop aborts
immediately with the propagated error — the event trace ends at the backup
write, with no attempt to restore the target from a backup. -/
theorem C9_counterexample :
    (autoAchieveGoal
        ⟨fun _ => RunOutcome.timeout, fun _ => none, fun _ => none,
         fun _ => some (chars "B"), fun _ => false, fun _ => true⟩
        (chars "A") 1).exit = LoopExit.ioError 1
    ∧ (autoAchieveGoal
        ⟨fun _ => RunOutcome.timeout, fun _ => none, fun _ => none,
         fun _ => some (chars "B"), fun _ => false, fun _ => true⟩
        (chars "A") 1).events
      = [LoopEvent.runTarget 1 ⟨false, [], timeoutMsg⟩,
         LoopEvent.evalExecution 1, LoopEvent.evalCode 1,
         LoopEvent.improveCall 1,
         LoopEvent.backupWrite 1 (chars "B")] := by
  constructor
  · decide
  · decide

/-- Claim C9 (amended): restoration-from-backup exists only on the
interactive `edit_file` path: there, when the target write fails after the
backup succeeded, restoration is attempted — it succeeds (restoring the
original content byte-identically) exactly when neither restore step
fails, and only a failed restoration is surfaced as a restore error.  In
the autonomous loop a target-write failure after a successful backup
aborts the loop at that iteration with no restoration attempt. -/
theorem C9_restore_on_write_failure :
    (∀ (originalCode newCode : List Char) (f : EditFlags),
        f.backupFail = false → f.writeFail = true →
        (((editApply originalCode newCode f).1 = EditOutcome.restored
            ↔ (f.restoreReadFail = false ∧ f.restoreWriteFail = false))
          ∧ (f.restoreReadFail = false → f.restoreWriteFail = false →
              (editApply originalCode newCode f).2.target = originalCode)))
    ∧ (∀ (env : AutoEnv) (r i : Nat) (code : List Char)
          (fb : Option (List Char)) (c : List Char),
        (evaluateExecution (env.evalExecResp i)).goal_achieved = false →
        improveCode (env.improveResp i) = some c →
        env.backupWriteFails i = false →
        env.targetWriteFails i = true →
        (autoGo env (r + 1) i code fb).exit = LoopExit.ioError i
          ∧ (autoGo env (r + 1) i code fb).events
            = [LoopEvent.runTarget i (runCode (env.run i)),
               LoopEvent.evalExecution i, LoopEvent.evalCode i,
               LoopEvent.improveCall i, LoopEvent.backupWrite i c]) := by
  constructor
  · intro orig new f hb hw
    by_cases h1 : f.restoreReadFail = true
    · constructor
      · simp [editApply, editRestore, hb, hw, h1]
      · intro h1' _
        rw [h1'] at h1
        simp at h1
    · have h1' : f.restoreReadFail = false := by
        revert h1; cases f.restoreReadFail <;> simp
      by_cases h2 : f.restoreWriteFail = true
      · constructor
        · simp [editApply, editRestore, hb, hw, h1', h2]
        · intro _ h2'
          rw [h2'] at h2
          simp at h2
      · have h2' : f.restoreWriteFail = false := by
          revert h2; cases f.restoreWriteFail <;> simp
        constructor
        · simp [editApply, editRestore, hb, hw, h1', h2']
        · intro _ _
          simp [editApply, editRestore, hb, hw, h1', h2']
  · intro env r i code fb c hex himp hbw htw
    have hg : ((evaluateExecution (env.evalExecResp i)).goal_achieved
        && (evaluateCode (env.evalCodeResp i)).goal_achieved) = false := by
      rw [hex]; rfl
    constructor <;> simp [autoGo, hg, himp, hbw, htw]

/-- Witness for C2: a Generator answering nothing on evaluations and "pass"
on improvements drives a 3-iteration budget to exactly 3 backup writes and
exhaustion. -/
theorem C2_iteration_budget_witness :
    (1 ≤ 3)
    ∧ (autoAchieveGoal
        ⟨fun _ => RunOutcome.timeout, fun _ => none, fun _ => none,
         fun _ => some (chars "pass"), fun _ => false, fun _ => false⟩
        (chars "x = 0") 3).exit = LoopExit.exhausted
    ∧ (autoAchieveGoal
        ⟨fun _ => RunOutcome.timeout, fun _ => none, fun _ => none,
         fun _ => some (chars "pass"), fun _ => false, fun _ => false⟩
        (chars "x = 0") 3).events.countP isBackupEvent = 3 := by
  have h := C2_iteration_budget
    ⟨fun _ => RunOutcome.timeout, fun _ => none, fun _ => none,
     fun _ => some (chars "pass"), fun _ => false, fun _ => false⟩
    (chars "x = 0") 3 (by decide) (fun _ => rfl) (fun _ => rfl) (fun _ => rfl)
    (fun _ => rfl) (fun _ => rfl)
  exact ⟨by decide, h.1, h.2.2.2.2.1⟩

/-- Witness for C4: a response answering " Yes " parses to achieved. -/
theorem C4_achieved_iff_yes_witness :
    noEarlyMatch dFEEDBACK (chars "\nYes\n") (dFEEDBACK ++ chars "\nok")
    ∧ (parseEvaluation (([] : List Char)
        ++ (dACHIEVED ++ (chars "\nYes\n"
          ++ (dFEEDBACK ++ chars "\nok"))))).goal_achieved = true := by
  refine ⟨by decide, ?_⟩
  exact (C4_achieved_iff_yes [] (chars "\nYes\n") (chars "\nok")
    (by decide) (by decide) (by decide)).mpr (by decide)

/-- Witness for C5: a delimiter-free response parses to the fixed
fail-closed result. -/
theorem C5_fail_closed_witness :
    (occurs dACHIEVED (chars "no markers here") = false
      ∨ occurs dFEEDBACK (chars "no markers here") = false)
    ∧ parseEvaluation (chars "no markers here") = ⟨false, failParseMsg⟩ :=
  ⟨Or.inl (by decide),
   C5_fail_closed.1 (chars "no markers here") (Or.inl (by decide))⟩

/-- Witness for C6: the three tiers at concrete inputs. -/
theorem C6_extract_code_precedence_witness :
    extractCode (chars "Here:\n"
        ++ (pythonFence ++ (chars "\nX\n" ++ (plainFence ++ chars "\ndone"))))
      = chars "X"
    ∧ extractCode (([] : List Char)
        ++ (plainFence ++ (chars "\nY\n" ++ (plainFence ++ ([] : List Char)))))
      = chars "Y"
    ∧ extractCode (chars " no fences ") = chars "no fences" := by
  refine ⟨?_, ?_, ?_⟩
  · exact (C6_extract_code_precedence.1 (chars "Here:\n") (chars "\nX\n")
      (chars "\ndone") (by decide) (by decide) (by decide)).trans (by decide)
  · exact (C6_extract_code_precedence.2.1 [] (chars "\nY\n") []
      (by decide) (by decide) (by decide)).trans (by decide)
  · exact (C6_extract_code_precedence.2.2 (chars " no fences ")
      (by decide)).trans (by decide)

/-- Witness for C7: with every run timing out, a 2-iteration budget still
performs both improvement calls and exits exhausted. -/
theorem C7_timeout_recovered_witness :
    (autoAchieveGoal
        ⟨fun _ => RunOutcome.timeout, fun _ => none, fun _ => none,
         fun _ => some (chars "y = 1"), fun _ => false, fun _ => false⟩
        (chars "y = 0") 2).exit = LoopExit.exhausted
    ∧ (autoAchieveGoal
        ⟨fun _ => RunOutcome.timeout, fun _ => none, fun _ => none,
         fun _ => some (chars "y = 1"), fun _ => false, fun _ => false⟩
        (chars "y = 0") 2).events.countP isImproveEvent = 2 := by
  have h := C7_timeout_recovered.2
    ⟨fun _ => RunOutcome.timeout, fun _ => none, fun _ => none,
     fun _ => some (chars "y = 1"), fun _ => false, fun _ => false⟩
    (chars "y = 0") 2 (fun _ => rfl) (fun _ => rfl) (fun _ => rfl)
    (fun _ => rfl) (fun _ => rfl)
  exact ⟨h.1, h.2.1⟩

/-- Witness for C8: a concrete template round trip. -/
theorem C8_parse_edit_left_inverse_witness :
    delimiterFree (chars " An explanation ")
    ∧ parseEdit (mkEditResponse (chars " An explanation ") (chars "x = 1")
        (chars "Careful"))
      = some ⟨chars "An explanation", chars "x = 1", chars "Careful"⟩ := by
  refine ⟨by decide, ?_⟩
  exact (C8_parse_edit_left_inverse (chars " An explanation ") (chars "x = 1")
    (chars "Careful") (by decide) (by decide) (by decide)).trans (by decide)

/-- Witness for C9: the edit path restores the original content when the
target write fails, and the autonomous path aborts at the iteration whose
target write fails. -/
theorem C9_restore_on_write_failure_witness :
    (editApply (chars "old") (chars "new")
        ⟨false, true, false, false, false⟩).1 = EditOutcome.restored
    ∧ (editApply (chars "old") (chars "new")
        ⟨false, true, false, false, false⟩).2.target = chars "old"
    ∧ (autoGo
        ⟨fun _ => RunOutcome.timeout, fun _ => none, fun _ => none,
         fun _ => some (chars "B"), fun _ => false, fun _ => true⟩
        (0 + 1) 1 (chars "A") none).exit = LoopExit.ioError 1 := by
  have h1 := C9_restore_on_write_failure.1 (chars "old") (chars "new")
    ⟨false, true, false, false, false⟩ rfl rfl
  have h2 := C9_restore_on_write_failure.2
    ⟨fun _ => RunOutcome.timeout, fun _ => none, fun _ => none,
     fun _ => some (chars "B"), fun _ => false, fun _ => true⟩
    0 1 (chars "A") none (chars "B") rfl rfl rfl rfl
  exact ⟨h1.1.mpr ⟨rfl, rfl⟩, h1.2 rfl rfl, h2.1⟩
